import Mathlib

/-!
Verification of the DragonOS process-management and CFS-scheduling core
(src/kernel/src/process/mod.rs and src/kernel/src/sched/cfs.rs) against its
natural-language specification.  The Rust code is shallowly embedded: the
per-CPU run queue (an RBTree keyed by virtual runtime) becomes a key-sorted
association list, PCB state becomes an explicit value threaded through the
operations, fallible operations return Except or Option (Option.none models
a panic or a failed assertion), and each ProcessManager operation also
reports the trace of externally visible actions it performs (state writes,
lock release, enqueue calls, scheduler invocation), so that ordering claims
such as lock-release-before-enqueue are provable facts of the embedding.
-/

namespace DragonOS

/-- ProcessState from process/mod.rs lines 329-342: Runnable, Blocked with an
interruptible flag, or Exited with an exit code (usize, modelled as Nat). -/
inductive ProcessState : Type where
  | Runnable : ProcessState
  | Blocked : Bool → ProcessState
  | Exited : Nat → ProcessState
deriving DecidableEq, Repr

/-- ProcessState::is_runnable (mod.rs line 347). -/
def ProcessState.is_runnable : ProcessState → Bool
  | .Runnable => true
  | _ => false

/-- ProcessState::is_blocked (mod.rs line 352). -/
def ProcessState.is_blocked : ProcessState → Bool
  | .Blocked _ => true
  | _ => false

/-- ProcessState::is_exited (mod.rs line 357). -/
def ProcessState.is_exited : ProcessState → Bool
  | .Exited _ => true
  | _ => false

/-- The SystemError variants the embedded code uses. -/
inductive SystemError : Type where
  | EINVAL : SystemError
  | EINTR : SystemError
  | ECHILD : SystemError
  | EPERM : SystemError
  | EFAULT : SystemError
deriving DecidableEq, Repr

/-- Externally visible actions a ProcessManager operation performs, in program
order: writing the scheduling state, releasing the sched_info write lock
(the drop of the writer guard), calling sched_enqueue, inserting the
NEED_SCHEDULE flag, invoking the scheduler, waking the wait queue. -/
inductive PMEvent : Type where
  | setState : ProcessState → PMEvent
  | releaseSchedLock : PMEvent
  | enqueue : PMEvent
  | insertNeedSchedule : PMEvent
  | invokeScheduler : PMEvent
  | wakeupWaitQueue : PMEvent
deriving DecidableEq, Repr

/-- Result of one ProcessManager operation on one PCB: the returned value,
the PCB's scheduling state afterwards, and the action trace. -/
structure PMStepResult : Type where
  result : Except SystemError Unit
  state : ProcessState
  events : List PMEvent
deriving Repr

/-- ProcessManager::wakeup, mod.rs lines 166-189.  Reads the state, and when
it is blocked re-reads it under the sched_info write lock (sequentially the
same value), sets Runnable, drops the writer guard, and only then calls
sched_enqueue; an exited target yields EINVAL, a runnable one Ok with no
enqueue. -/
def ProcessManager.wakeup (state : ProcessState) : PMStepResult :=
  if state.is_blocked then
    if state.is_blocked then
      { result := Except.ok (), state := ProcessState.Runnable,
        events := [PMEvent.setState ProcessState.Runnable,
                   PMEvent.releaseSchedLock, PMEvent.enqueue] }
    else if state.is_exited then
      { result := Except.error SystemError.EINVAL, state := state,
        events := [PMEvent.releaseSchedLock] }
    else
      { result := Except.ok (), state := state,
        events := [PMEvent.releaseSchedLock] }
  else if state.is_exited then
    { result := Except.error SystemError.EINVAL, state := state, events := [] }
  else
    { result := Except.ok (), state := state, events := [] }

/-- ProcessManager::mark_sleep, mod.rs lines 197-214.  The leading assertion
that interrupts are disabled is modelled by the irq_enabled argument: when it
is true the assertion fails and the operation aborts (none).  The source then
compares the state against ProcessState::Exited(0) only: any state different
from Exited(0) is moved to Blocked(interruptable) and NEED_SCHEDULE is
raised; the Exited(0) state gets Err(EINTR).  The body contains no call to
the scheduler, so no invokeScheduler event is emitted. -/
def ProcessManager.mark_sleep (interruptable : Bool) (irq_enabled : Bool)
    (state : ProcessState) : Option PMStepResult :=
  if irq_enabled then
    none
  else if state ≠ ProcessState.Exited 0 then
    some { result := Except.ok (), state := ProcessState.Blocked interruptable,
           events := [PMEvent.setState (ProcessState.Blocked interruptable),
                      PMEvent.insertNeedSchedule, PMEvent.releaseSchedLock] }
  else
    some { result := Except.error SystemError.EINTR, state := state,
           events := [PMEvent.releaseSchedLock] }

/-- ProcessManager::exit, mod.rs lines 235-248: sets Exited(code), wakes the
interruptibly blocked waiters of the wait queue, notifies (child adoption,
modelled separately), and invokes the scheduler.  The function never returns;
the model yields the state it installs and the trace. -/
def ProcessManager.exit (exit_code : Nat) : ProcessState × List PMEvent :=
  (ProcessState.Exited exit_code,
   [PMEvent.setState (ProcessState.Exited exit_code),
    PMEvent.wakeupWaitQueue, PMEvent.invokeScheduler])

/-- The state-transition operations the process manager offers on one PCB. -/
inductive PMOp : Type where
  | wakeup : PMOp
  | mark_sleep : Bool → PMOp
  | exit : Nat → PMOp
deriving DecidableEq, Repr

/-- The scheduling state a PCB ends in after one operation (interrupts
disabled, as each operation requires); a mark_sleep whose assertion would
fire leaves the state unchanged. -/
def PMOp.apply : PMOp → ProcessState → ProcessState
  | PMOp.wakeup, s => (ProcessManager.wakeup s).state
  | PMOp.mark_sleep i, s =>
      match ProcessManager.mark_sleep i false s with
      | some r => r.state
      | none => s
  | PMOp.exit c, _ => (ProcessManager.exit c).1

/-- The slice of a ProcessControlBlock the scheduler reads: pid, scheduling
state and virtual runtime (sched_info().state() and virtual_runtime()). -/
structure PCBModel : Type where
  pid : Nat
  state : ProcessState
  virtual_runtime : Int
deriving DecidableEq, Repr

/-- SchedEntity (mod.rs lines 982-993), restricted to the fields the claims
touch: the optional backing PCB and the entity's own virtual runtime. -/
structure SchedEntityModel : Type where
  pcb : Option PCBModel
  virtual_runtime : Int
deriving DecidableEq, Repr

/-- Insertion into the RBTree<i64, V> as cfs.rs uses it: entries are kept in
non-decreasing key order and a new entry with an already present key goes
after the existing ones, so equal keys are served in insertion order. -/
def rbInsert {α : Type} (k : Int) (v : α) : List (Int × α) → List (Int × α)
  | [] => [(k, v)]
  | e :: rest => if k < e.1 then (k, v) :: e :: rest else e :: rbInsert k v rest

/-- CFSQueue, cfs.rs lines 46-54: the remaining time slice of the running
entity, the locked ordered queue, and the reserved idle PCB.  The source
declares the tree as RBTree<i64, Arc<SchedEntity>> yet inserts PCBs through
enqueue and entities through enqueue_se, so the stored value type is a
parameter here, instantiated at PCBModel for the pcb operations and at
SchedEntityModel for the entity operations. -/
structure CFSQueue (α : Type) : Type where
  cpu_exec_proc_jiffies : Int
  locked_queue : List (Int × α)
  idle_pcb : PCBModel
deriving DecidableEq, Repr

/-- CFSQueue::new, cfs.rs lines 57-63. -/
def CFSQueue.new {α : Type} (idle_pcb : PCBModel) : CFSQueue α :=
  { cpu_exec_proc_jiffies := 0, locked_queue := [], idle_pcb := idle_pcb }

/-- CFSQueue::enqueue, cfs.rs lines 66-75: the idle process (pid 0) is never
inserted; any other pcb is inserted keyed by its current virtual runtime. -/
def CFSQueue.enqueue (q : CFSQueue PCBModel) (pcb : PCBModel) :
    CFSQueue PCBModel :=
  if pcb.pid = 0 then q
  else { q with locked_queue := rbInsert pcb.virtual_runtime pcb q.locked_queue }

/-- CFSQueue::enqueue_se, cfs.rs lines 78-81: no idle filtering. -/
def CFSQueue.enqueue_se (q : CFSQueue SchedEntityModel) (se : SchedEntityModel) :
    CFSQueue SchedEntityModel :=
  { q with locked_queue := rbInsert se.virtual_runtime se q.locked_queue }

/-- CFSQueue::dequeue, cfs.rs lines 84-95: pop the first (lowest-key) entry;
an empty queue yields the reserved idle PCB and leaves the queue as is. -/
def CFSQueue.dequeue (q : CFSQueue PCBModel) : PCBModel × CFSQueue PCBModel :=
  match q.locked_queue with
  | [] => (q.idle_pcb, q)
  | e :: rest => (e.2, { q with locked_queue := rest })

/-- CFSQueue::dequeue_se, cfs.rs lines 98-106: pop the first entry; on an
empty queue the source's local res is never assigned (the function cannot
produce a value there), modelled as none. -/
def CFSQueue.dequeue_se {α : Type} (q : CFSQueue α) :
    Option (α × CFSQueue α) :=
  match q.locked_queue with
  | [] => none
  | e :: rest => some (e.2, { q with locked_queue := rest })

/-- Enqueue a list of pcbs one after the other (no interleaved dequeue). -/
def CFSQueue.enqueueAll (q : CFSQueue PCBModel) (ps : List PCBModel) :
    CFSQueue PCBModel :=
  ps.foldl CFSQueue.enqueue q

/-- Dequeue repeatedly, fuel-bounded, until the queue is empty. -/
def CFSQueue.drainFuel : Nat → CFSQueue PCBModel → List PCBModel
  | 0, _ => []
  | Nat.succ n, q =>
    match q.locked_queue with
    | [] => []
    | _ :: _ => (CFSQueue.dequeue q).1 :: CFSQueue.drainFuel n (CFSQueue.dequeue q).2

/-- Dequeue every entry of the queue in order. -/
def CFSQueue.drain (q : CFSQueue PCBModel) : List PCBModel :=
  CFSQueue.drainFuel q.locked_queue.length q

/-- Keys of the run queue are in non-decreasing order: the RBTree invariant. -/
def keysSorted {α : Type} (l : List (Int × α)) : Prop :=
  l.Pairwise (fun a b => a.1 ≤ b.1)

/-- Every entry's key equals its pcb's virtual runtime: holds for queues
built by enqueue, which keys each pcb by its own virtual runtime. -/
def keysMatch (l : List (Int × PCBModel)) : Prop :=
  ∀ e ∈ l, e.1 = e.2.virtual_runtime

/-- Outcome of SchedulerCFS::sched (cfs.rs lines 235-312) on the decision
level: whether a switch is reported (the chosen candidate is returned),
whether the current process was re-enqueued through sched_enqueue, and
whether the candidate was pushed back through sched_enqueue. -/
structure SchedOutcome : Type where
  switched : Option PCBModel
  reenqueued_current : Bool
  reenqueued_candidate : Bool
deriving DecidableEq, Repr

/-- SchedulerCFS::sched, cfs.rs lines 264-311, after the candidate entity has
been popped from the current CPU's queue and resolved to its process pcb
(cand).  A switch is warranted when the current process is not Runnable or
its virtual runtime is greater than or equal to the candidate's; on a switch
the current process is re-enqueued through sched_enqueue exactly when it is
still Runnable, and the candidate is returned; otherwise no switch is
reported and the candidate is pushed back through sched_enqueue. -/
def SchedulerCFS.sched (current cand : PCBModel) : SchedOutcome :=
  if current.state ≠ ProcessState.Runnable ∨
      current.virtual_runtime ≥ cand.virtual_runtime then
    { switched := some cand,
      reenqueued_current := decide (current.state = ProcessState.Runnable),
      reenqueued_candidate := false }
  else
    { switched := none,
      reenqueued_current := false,
      reenqueued_candidate := true }

/-- Lookup in a HashMap / BTreeMap modelled as an association list. -/
def mapLookup {α : Type} : List (Nat × α) → Nat → Option α
  | [], _ => none
  | e :: rest, k => if e.1 = k then some e.2 else mapLookup rest k

/-- HashMap::insert: the new binding replaces any binding of the same key. -/
def mapInsert {α : Type} (m : List (Nat × α)) (k : Nat) (v : α) :
    List (Nat × α) :=
  (k, v) :: m.filter (fun e => e.1 != k)

/-- BTreeMap::get_mut followed by writing the vector in place: the value at
an already present key is replaced, an absent key changes nothing. -/
def mapUpdate {α : Type} : List (Nat × α) → Nat → α → List (Nat × α)
  | [], _, _ => []
  | e :: rest, k, v => if e.1 = k then (k, v) :: rest else e :: mapUpdate rest k v

/-- HashMap::remove. -/
def mapRemove {α : Type} (m : List (Nat × α)) (k : Nat) : List (Nat × α) :=
  m.filter (fun e => e.1 != k)

/-- ProcessManager::release, mod.rs lines 250-263.  The registry maps pid to
PCB; external_refs counts the strong references to that PCB held outside the
registry's own entry and outside the temporary clone that find() returns.
Arc::strong_count is observed on that temporary clone, so a registered pid is
seen with count 1 (registry entry) + 1 (the clone) + external_refs; the entry
is removed when the observed count is at most 1, otherwise the function
panics (none).  An unregistered pid is a silent no-op. -/
def ProcessManager.release (reg : List (Nat × PCBModel)) (pid : Nat)
    (external_refs : Nat) : Option (List (Nat × PCBModel)) :=
  match mapLookup reg pid with
  | none => some reg
  | some _ =>
      if 1 + 1 + external_refs ≤ 1 then some (mapRemove reg pid)
      else none

/-- ProcessControlBlock::adopt_childen, mod.rs lines 621-635: when the init
process (pid 1) is registered, drain the exiting process's child map into
init's child map (HashMap insert semantics) leaving the former empty;
otherwise ECHILD. -/
def ProcessControlBlock.adopt_childen (init_found : Bool)
    (self_children init_children : List (Nat × PCBModel)) :
    Except SystemError (List (Nat × PCBModel) × List (Nat × PCBModel)) :=
  if init_found then
    Except.ok
      ([], self_children.foldl (fun m e => mapInsert m e.1 e.2) init_children)
  else
    Except.error SystemError.ECHILD

/-- ProcessManager::exit_notify, mod.rs lines 217-228: a process other than
init (pid 1) hands all its children to init, panicking (none) when adoption
fails; init itself changes nothing. -/
def ProcessManager.exit_notify (current_pid : Nat) (init_found : Bool)
    (self_children init_children : List (Nat × PCBModel)) :
    Option (List (Nat × PCBModel) × List (Nat × PCBModel)) :=
  if current_pid ≠ 1 then
    match ProcessControlBlock.adopt_childen init_found self_children init_children with
    | Except.ok r => some r
    | Except.error _ => none
  else
    some (self_children, init_children)

/-- ProcessGroupManager::set_pgid_by_pid, mod.rs lines 1138-1153: unwrap the
old group's member list (panic, none, when absent), retain every member
other than pid, then either push pid onto an existing destination list
(returning false) or insert a fresh list holding new_pgid (returning true). -/
def ProcessGroupManager.set_pgid_by_pid (inner : List (Nat × List Nat))
    (pid new_pgid old_pgid : Nat) : Option (Bool × List (Nat × List Nat)) :=
  match mapLookup inner old_pgid with
  | none => none
  | some old_vec =>
      let inner1 := mapUpdate inner old_pgid (old_vec.filter (fun x => x != pid))
      match mapLookup inner1 new_pgid with
      | some new_vec => some (false, mapUpdate inner1 new_pgid (new_vec ++ [pid]))
      | none => some (true, inner1 ++ [(new_pgid, [new_pgid])])

/-- ProcessSchedulerInfo, mod.rs lines 759-779, with the atomic i32 cpu
fields kept in their raw encoding (-1 for none). -/
structure ProcessSchedulerInfo : Type where
  on_cpu_raw : Int
  migrate_to_raw : Int
  state : ProcessState
  virtual_runtime : Int
  rt_time_slice : Int
  priority : Nat
deriving DecidableEq, Repr

/-- ProcessSchedulerInfo::new, mod.rs lines 782-797: the state starts as
Blocked(false), the virtual runtime at 0, priority 100, and the cpu field
encodes the optional argument with -1 for none. -/
def ProcessSchedulerInfo.new (on_cpu : Option Nat) : ProcessSchedulerInfo :=
  { on_cpu_raw := match on_cpu with
      | some cpu_id => (cpu_id : Int)
      | none => -1,
    migrate_to_raw := -1,
    state := ProcessState.Blocked false,
    virtual_runtime := 0,
    rt_time_slice := 0,
    priority := 100 }

/-- ProcessSchedulerInfo::on_cpu, mod.rs lines 799-806: decode -1 as none. -/
def ProcessSchedulerInfo.on_cpu (si : ProcessSchedulerInfo) : Option Nat :=
  if si.on_cpu_raw = -1 then none else some si.on_cpu_raw.toNat

/-- The fields of a freshly constructed ProcessControlBlock the claims
inspect. -/
structure PCBCreated : Type where
  pid : Nat
  sched_info : ProcessSchedulerInfo
  preempt_count : Nat
  flags_need_schedule : Bool
deriving DecidableEq, Repr

/-- ProcessControlBlock::do_create_pcb, mod.rs lines 436-489: pid 0 for the
idle path, the freshly generated pid otherwise; the scheduling info is
ProcessSchedulerInfo::new(None), the preemption counter 0, the flag set
empty. -/
def ProcessControlBlock.do_create_pcb (generated_pid : Nat) (is_idle : Bool) :
    PCBCreated :=
  { pid := if is_idle then 0 else generated_pid,
    sched_info := ProcessSchedulerInfo.new none,
    preempt_count := 0,
    flags_need_schedule := false }

/-- ProcessControlBlock::new, mod.rs lines 424-426. -/
def ProcessControlBlock.new (generated_pid : Nat) : PCBCreated :=
  ProcessControlBlock.do_create_pcb generated_pid false

/-- ProcessControlBlock::new_idle, mod.rs lines 431-434 (the cpu id only
names the process). -/
def ProcessControlBlock.new_idle (_cpu_id : Nat) : PCBCreated :=
  ProcessControlBlock.do_create_pcb 0 true

/-- Sample pcb used by concrete instances: the per-CPU idle process. -/
def idlePCB : PCBModel :=
  { pid := 0, state := ProcessState.Runnable, virtual_runtime := 0 }

/-- Sample pcb with a given pid and virtual runtime, runnable. -/
def pcbV (pid : Nat) (vrt : Int) : PCBModel :=
  { pid := pid, state := ProcessState.Runnable, virtual_runtime := vrt }

/-! Helper lemmas about the embedded data structures. -/

/-- Every element of an insertion is the inserted pair or an old element. -/
theorem mem_rbInsert {α : Type} (k : Int) (v : α) (l : List (Int × α)) :
    ∀ x ∈ rbInsert k v l, x = (k, v) ∨ x ∈ l := by
  induction l with
  | nil =>
    intro x hx
    simp [rbInsert] at hx
    exact Or.inl hx
  | cons e rest ih =>
    intro x hx
    by_cases hk : k < e.1
    · simp only [rbInsert, if_pos hk] at hx
      rcases List.mem_cons.mp hx with h1 | h1
      · exact Or.inl h1
      · exact Or.inr h1
    · simp only [rbInsert, if_neg hk] at hx
      rcases List.mem_cons.mp hx with h1 | h1
      · right
        rw [h1]
        exact List.mem_cons_self e rest
      · rcases ih x h1 with h2 | h2
        · exact Or.inl h2
        · exact Or.inr (List.mem_cons_of_mem e h2)

/-- Insertion keeps the queue's keys in non-decreasing order. -/
theorem rbInsert_keysSorted {α : Type} (k : Int) (v : α) (l : List (Int × α))
    (h : keysSorted l) : keysSorted (rbInsert k v l) := by
  induction l with
  | nil =>
    simp [rbInsert, keysSorted]
  | cons e rest ih =>
    rw [keysSorted, List.pairwise_cons] at h
    obtain ⟨he, hrest⟩ := h
    by_cases hk : k < e.1
    · rw [keysSorted]
      simp only [rbInsert, if_pos hk]
      rw [List.pairwise_cons]
      refine ⟨?_, ?_⟩
      · intro x hx
        rcases List.mem_cons.mp hx with h1 | h1
        · rw [h1]
          exact le_of_lt hk
        · exact le_trans (le_of_lt hk) (he x h1)
      · rw [List.pairwise_cons]
        exact ⟨he, hrest⟩
    · rw [keysSorted]
      simp only [rbInsert, if_neg hk]
      rw [List.pairwise_cons]
      refine ⟨?_, ih hrest⟩
      intro x hx
      rcases mem_rbInsert k v rest x hx with h1 | h1
      · rw [h1]
        exact le_of_not_lt hk
      · exact he x h1

/-- In a sorted queue the head's key bounds every entry's key. -/
theorem keysSorted_head_le {α : Type} (k : Int) (v : α) (rest : List (Int × α))
    (h : keysSorted ((k, v) :: rest)) : ∀ e ∈ (k, v) :: rest, k ≤ e.1 := by
  rw [keysSorted, List.pairwise_cons] at h
  intro e he
  rcases List.mem_cons.mp he with h1 | h1
  · rw [h1]
  · exact h.1 e h1

/-- enqueue preserves sortedness and the key-matches-runtime invariant. -/
theorem enqueue_preserves_inv (q : CFSQueue PCBModel) (p : PCBModel)
    (h1 : keysSorted q.locked_queue) (h2 : keysMatch q.locked_queue) :
    keysSorted (q.enqueue p).locked_queue ∧ keysMatch (q.enqueue p).locked_queue := by
  by_cases hp : p.pid = 0
  · simp only [CFSQueue.enqueue, if_pos hp]
    exact ⟨h1, h2⟩
  · simp only [CFSQueue.enqueue, if_neg hp]
    refine ⟨rbInsert_keysSorted _ _ _ h1, ?_⟩
    intro e he
    rcases mem_rbInsert p.virtual_runtime p q.locked_queue e he with h | h
    · rw [h]
    · exact h2 e h

/-- enqueueAll preserves both queue invariants. -/
theorem enqueueAll_preserves_inv (ps : List PCBModel) (q : CFSQueue PCBModel)
    (h1 : keysSorted q.locked_queue) (h2 : keysMatch q.locked_queue) :
    keysSorted (q.enqueueAll ps).locked_queue ∧
      keysMatch (q.enqueueAll ps).locked_queue := by
  induction ps generalizing q with
  | nil => exact ⟨h1, h2⟩
  | cons p rest ih =>
    have h := enqueue_preserves_inv q p h1 h2
    exact ih (q.enqueue p) h.1 h.2

/-- Fully fuelled drain lists the stored values in queue order. -/
theorem drainFuel_eq_map (n : Nat) (q : CFSQueue PCBModel)
    (h : q.locked_queue.length ≤ n) :
    CFSQueue.drainFuel n q = q.locked_queue.map Prod.snd := by
  induction n generalizing q with
  | zero =>
    have h0 : q.locked_queue = [] := List.length_eq_zero.mp (Nat.le_zero.mp h)
    simp [CFSQueue.drainFuel, h0]
  | succ n ih =>
    cases hq : q.locked_queue with
    | nil => simp [CFSQueue.drainFuel, hq]
    | cons e rest =>
      have hd1 : (CFSQueue.dequeue q).1 = e.2 := by
        simp [CFSQueue.dequeue, hq]
      have hd2 : (CFSQueue.dequeue q).2 = { q with locked_queue := rest } := by
        simp [CFSQueue.dequeue, hq]
      have hlen : rest.length ≤ n := by
        rw [hq] at h
        exact Nat.le_of_succ_le_succ h
      rw [CFSQueue.drainFuel]
      simp only [hq]
      rw [hd1, hd2]
      rw [ih { q with locked_queue := rest } hlen]
      simp

/-- drain lists the stored values in queue order. -/
theorem drain_eq_map (q : CFSQueue PCBModel) :
    CFSQueue.drain q = q.locked_queue.map Prod.snd :=
  drainFuel_eq_map q.locked_queue.length q (le_refl _)

/-- A lookup misses exactly when the key is not among the map's keys. -/
theorem mapLookup_eq_none_iff {α : Type} (m : List (Nat × α)) (k : Nat) :
    mapLookup m k = none ↔ k ∉ m.map Prod.fst := by
  induction m with
  | nil => simp [mapLookup]
  | cons e rest ih =>
    by_cases h : e.1 = k
    · simp [mapLookup, h]
    · simp only [mapLookup, if_neg h, List.map_cons]
      rw [ih]
      constructor
      · intro hnk hmem
        rcases List.mem_cons.mp hmem with h1 | h1
        · exact h h1.symm
        · exact hnk h1
      · intro hnk h1
        exact hnk (List.mem_cons_of_mem _ h1)

/-- Inserting binds the inserted key. -/
theorem mapLookup_mapInsert_self {α : Type} (m : List (Nat × α)) (k : Nat) (v : α) :
    mapLookup (mapInsert m k v) k = some v := by
  simp [mapInsert, mapLookup]

/-- Filtering out one key leaves lookups of other keys alone. -/
theorem mapLookup_filter_ne {α : Type} (m : List (Nat × α)) (k j : Nat)
    (h : j ≠ k) :
    mapLookup (m.filter (fun e => e.1 != k)) j = mapLookup m j := by
  induction m with
  | nil => rfl
  | cons e rest ih =>
    by_cases he : e.1 = k
    · have hej : ¬e.1 = j := by
        rw [he]
        exact fun hx => h hx.symm
      simp [List.filter_cons, he, mapLookup, hej, ih, Ne.symm h]
    · by_cases hej : e.1 = j
      · simp [List.filter_cons, he, mapLookup, hej, bne_iff_ne, h]
      · simp [List.filter_cons, he, mapLookup, hej, ih, bne_iff_ne, h]

/-- Inserting one key leaves lookups of other keys alone. -/
theorem mapLookup_mapInsert_ne {α : Type} (m : List (Nat × α)) (k j : Nat) (v : α)
    (h : j ≠ k) : mapLookup (mapInsert m k v) j = mapLookup m j := by
  have hk : k ≠ j := fun hx => h hx.symm
  simp only [mapInsert, mapLookup, if_neg hk]
  exact mapLookup_filter_ne m k j h

/-- Updating a present key rebinds it. -/
theorem mapLookup_mapUpdate_self {α : Type} (m : List (Nat × α)) (k : Nat)
    (v w : α) (h : mapLookup m k = some w) :
    mapLookup (mapUpdate m k v) k = some v := by
  induction m with
  | nil => simp [mapLookup] at h
  | cons e rest ih =>
    by_cases he : e.1 = k
    · simp only [mapUpdate, if_pos he]
      simp [mapLookup]
    · simp only [mapLookup, if_neg he] at h
      simp only [mapUpdate, if_neg he]
      simp [mapLookup, he, ih h]

/-- Updating one key leaves lookups of other keys alone. -/
theorem mapLookup_mapUpdate_ne {α : Type} (m : List (Nat × α)) (k j : Nat) (v : α)
    (h : j ≠ k) : mapLookup (mapUpdate m k v) j = mapLookup m j := by
  induction m with
  | nil => rfl
  | cons e rest ih =>
    by_cases he : e.1 = k
    · have h1 : ¬k = j := fun hx => h hx.symm
      have h2 : ¬e.1 = j := by
        rw [he]
        exact h1
      simp only [mapUpdate, if_pos he]
      simp [mapLookup, h1, h2]
    · simp only [mapUpdate, if_neg he]
      by_cases hej : e.1 = j
      · simp [mapLookup, hej]
      · simp [mapLookup, hej, ih]

/-- Updating never changes which keys are bound. -/
theorem mapLookup_mapUpdate_none_iff {α : Type} (m : List (Nat × α)) (k j : Nat)
    (v : α) : mapLookup (mapUpdate m k v) j = none ↔ mapLookup m j = none := by
  induction m with
  | nil => simp [mapUpdate]
  | cons e rest ih =>
    by_cases he : e.1 = k
    · simp only [mapUpdate, if_pos he]
      by_cases hkj : k = j
      · have h2 : e.1 = j := by
          rw [he]
          exact hkj
        simp [mapLookup, hkj, h2]
      · have h2 : ¬e.1 = j := by
          rw [he]
          exact hkj
        simp [mapLookup, hkj, h2]
    · simp only [mapUpdate, if_neg he]
      by_cases hej : e.1 = j
      · simp [mapLookup, hej]
      · simp [mapLookup, hej, ih]

/-- Appending a fresh binding makes it visible. -/
theorem mapLookup_append_self {α : Type} (m : List (Nat × α)) (k : Nat) (v : α)
    (h : mapLookup m k = none) : mapLookup (m ++ [(k, v)]) k = some v := by
  induction m with
  | nil => simp [mapLookup]
  | cons e rest ih =>
    by_cases he : e.1 = k
    · simp [mapLookup, he] at h
    · simp only [mapLookup, if_neg he] at h
      simp [mapLookup, he, ih h]

/-- Appending a binding leaves lookups of other keys alone. -/
theorem mapLookup_append_ne {α : Type} (m : List (Nat × α)) (k j : Nat) (v : α)
    (h : j ≠ k) : mapLookup (m ++ [(k, v)]) j = mapLookup m j := by
  induction m with
  | nil =>
    have hk : k ≠ j := fun hx => h hx.symm
    simp [mapLookup, hk]
  | cons e rest ih =>
    by_cases hej : e.1 = j
    · simp [mapLookup, hej]
    · simp [mapLookup, hej, ih]

/-- Folding inserts over entries that avoid a key leaves that key alone. -/
theorem foldl_insert_lookup_not_mem {α : Type} (sc : List (Nat × α))
    (m : List (Nat × α)) (k : Nat) (h : k ∉ sc.map Prod.fst) :
    mapLookup (sc.foldl (fun acc e => mapInsert acc e.1 e.2) m) k
      = mapLookup m k := by
  induction sc generalizing m with
  | nil => rfl
  | cons e rest ih =>
    simp only [List.map_cons, List.mem_cons] at h
    push_neg at h
    rw [List.foldl_cons, ih _ h.2]
    exact mapLookup_mapInsert_ne m e.1 k e.2 h.1

/-- Folding inserts over a key-distinct list binds each of its entries. -/
theorem foldl_insert_lookup_mem {α : Type} (sc : List (Nat × α))
    (m : List (Nat × α)) (k : Nat) (v : α)
    (hnd : (sc.map Prod.fst).Nodup) (hmem : (k, v) ∈ sc) :
    mapLookup (sc.foldl (fun acc e => mapInsert acc e.1 e.2) m) k = some v := by
  induction sc generalizing m with
  | nil => cases hmem
  | cons e rest ih =>
    simp only [List.map_cons, List.nodup_cons] at hnd
    rw [List.foldl_cons]
    rcases List.mem_cons.mp hmem with h1 | h1
    · have hk : k ∉ rest.map Prod.fst := by
        rw [← h1] at hnd
        exact hnd.1
      rw [foldl_insert_lookup_not_mem rest _ k hk, ← h1]
      exact mapLookup_mapInsert_self m k v
    · exact ih (mapInsert m e.1 e.2) hnd.2 h1

/-- A state that is not exited differs from Exited 0. -/
theorem is_exited_false_ne_exited_zero (s : ProcessState)
    (h : s.is_exited = false) : s ≠ ProcessState.Exited 0 := by
  cases s <;> simp_all [ProcessState.is_exited]

/-! The claims. -/

/-- C1 counterexample: with the current process Runnable at virtual runtime
10 and the dequeued candidate at virtual runtime 10, sched reports a switch
(the candidate is returned and the still-Runnable current process is
re-enqueued), not the claimed no-switch: the source compares with greater-or-
equal, so an equal virtual runtime also switches. -/
theorem sched_equal_vruntime_reports_switch :
    (SchedulerCFS.sched (pcbV 2 10) (pcbV 3 10)).switched = some (pcbV 3 10) ∧
    (SchedulerCFS.sched (pcbV 2 10) (pcbV 3 10)).reenqueued_current = true ∧
    (SchedulerCFS.sched (pcbV 2 10) (pcbV 3 10)).reenqueued_candidate = false := by
  refine ⟨?_, ?_, ?_⟩ <;> decide

/-- C1 (amended): sched reports a switch, returning the candidate, exactly
when the current process is not Runnable or the candidate's virtual runtime
is less than or equal to the current's (an equal virtual runtime also
switches); the still-Runnable current process is re-enqueued exactly on such
a switch; no switch is reported, with the candidate pushed back onto the
queue, exactly when the current process is Runnable and its virtual runtime
is strictly smaller than the candidate's. -/
theorem sched_switch_characterization (current cand : PCBModel) :
    ((SchedulerCFS.sched current cand).switched = some cand ↔
      (current.state ≠ ProcessState.Runnable ∨
        cand.virtual_runtime ≤ current.virtual_runtime)) ∧
    ((SchedulerCFS.sched current cand).reenqueued_current = true ↔
      (current.state = ProcessState.Runnable ∧
        cand.virtual_runtime ≤ current.virtual_runtime)) ∧
    ((SchedulerCFS.sched current cand).switched = none ↔
      (current.state = ProcessState.Runnable ∧
        current.virtual_runtime < cand.virtual_runtime)) ∧
    ((SchedulerCFS.sched current cand).reenqueued_candidate = true ↔
      (SchedulerCFS.sched current cand).switched = none) := by
  rcases le_or_lt cand.virtual_runtime current.virtual_runtime with hv | hv
  · have hcond : current.state ≠ ProcessState.Runnable ∨
        current.virtual_runtime ≥ cand.virtual_runtime := Or.inr hv
    simp only [SchedulerCFS.sched, if_pos hcond]
    by_cases hs : current.state = ProcessState.Runnable
    · simp [hs, hv, not_lt.mpr hv]
    · simp [hs, hv]
  · by_cases hs : current.state = ProcessState.Runnable
    · have hcond : ¬(current.state ≠ ProcessState.Runnable ∨
          current.virtual_runtime ≥ cand.virtual_runtime) := by
        push_neg
        exact ⟨hs, hv⟩
      simp only [SchedulerCFS.sched, if_neg hcond]
      simp [hs, hv, not_le.mpr hv]
    · have hcond : current.state ≠ ProcessState.Runnable ∨
        current.virtual_runtime ≥ cand.virtual_runtime := Or.inl hs
      simp only [SchedulerCFS.sched, if_pos hcond]
      simp [hs, not_le.mpr hv]

/-- C2: ProcessManager::mark_sleep compares the state against Exited(0)
only, so a PCB that exited with code 1 is moved back to Blocked(true) with
Ok returned: the Exited state is not absorbing as the claim (and the spec's
own invariant) requires, although wakeup does refuse the exited target with
EINVAL. -/
theorem mark_sleep_escapes_exited_nonzero :
    (ProcessManager.mark_sleep true false (ProcessState.Exited 1)).map
        PMStepResult.state = some (ProcessState.Blocked true) ∧
    (ProcessManager.mark_sleep true false (ProcessState.Exited 1)).map
        PMStepResult.result = some (Except.ok ()) ∧
    (ProcessManager.wakeup (ProcessState.Exited 1)).result
      = Except.error SystemError.EINVAL ∧
    (ProcessManager.wakeup (ProcessState.Exited 1)).state
      = ProcessState.Exited 1 := by
  refine ⟨rfl, rfl, rfl, rfl⟩

/-- C3: wakeup fails with EINVAL on an exited target leaving the state
unchanged and never enqueueing; succeeds as a no-op on a Runnable target
with no enqueue; and on a Blocked target of either interruptibility returns
Ok, makes it Runnable, calls sched_enqueue exactly once, and releases the
sched_info write lock strictly before that enqueue call. -/
theorem wakeup_state_cases (s : ProcessState) :
    (s.is_exited = true →
      (ProcessManager.wakeup s).result = Except.error SystemError.EINVAL ∧
      (ProcessManager.wakeup s).state = s ∧
      PMEvent.enqueue ∉ (ProcessManager.wakeup s).events) ∧
    (s = ProcessState.Runnable →
      (ProcessManager.wakeup s).result = Except.ok () ∧
      (ProcessManager.wakeup s).state = s ∧
      PMEvent.enqueue ∉ (ProcessManager.wakeup s).events) ∧
    (∀ i, s = ProcessState.Blocked i →
      (ProcessManager.wakeup s).result = Except.ok () ∧
      (ProcessManager.wakeup s).state = ProcessState.Runnable ∧
      (ProcessManager.wakeup s).events.count PMEvent.enqueue = 1 ∧
      ∃ a b, (ProcessManager.wakeup s).events
          = a ++ PMEvent.releaseSchedLock :: b ∧
        PMEvent.enqueue ∉ a ∧ PMEvent.enqueue ∈ b) := by
  refine ⟨?_, ?_, ?_⟩
  · intro h
    cases s with
    | Runnable => simp [ProcessState.is_exited] at h
    | Blocked i => simp [ProcessState.is_exited] at h
    | Exited c =>
      exact ⟨rfl, rfl, by
        simp [ProcessManager.wakeup, ProcessState.is_blocked,
          ProcessState.is_exited]⟩
  · intro h
    subst h
    exact ⟨rfl, rfl, by decide⟩
  · intro i h
    subst h
    exact ⟨rfl, rfl, rfl,
      [PMEvent.setState ProcessState.Runnable], [PMEvent.enqueue],
      rfl, by decide, by decide⟩

/-- C4: dequeue on an empty per-CPU queue returns that queue's reserved idle
PCB (it is total: never none, never a failure); on a sorted non-empty queue
dequeue and dequeue_se remove and return the entry whose virtual-runtime key
is lowest. -/
theorem dequeue_idle_and_lowest_key (q : CFSQueue PCBModel)
    (qs : CFSQueue SchedEntityModel)
    (hq : keysSorted q.locked_queue) (hqs : keysSorted qs.locked_queue) :
    (q.locked_queue = [] → CFSQueue.dequeue q = (q.idle_pcb, q)) ∧
    (∀ k v rest, q.locked_queue = (k, v) :: rest →
      CFSQueue.dequeue q = (v, { q with locked_queue := rest }) ∧
      ∀ e ∈ q.locked_queue, k ≤ e.1) ∧
    (∀ k v rest, qs.locked_queue = (k, v) :: rest →
      CFSQueue.dequeue_se qs = some (v, { qs with locked_queue := rest }) ∧
      ∀ e ∈ qs.locked_queue, k ≤ e.1) := by
  refine ⟨?_, ?_, ?_⟩
  · intro h
    simp [CFSQueue.dequeue, h]
  · intro k v rest h
    refine ⟨by simp [CFSQueue.dequeue, h], ?_⟩
    rw [h] at hq ⊢
    exact keysSorted_head_le k v rest hq
  · intro k v rest h
    refine ⟨by simp [CFSQueue.dequeue_se, h], ?_⟩
    rw [h] at hqs ⊢
    exact keysSorted_head_le k v rest hqs

/-- C4 witness: on the empty queue dequeue yields the idle PCB, and on a
concrete two-entry queue dequeue pops the entry with the lowest key. -/
theorem dequeue_idle_and_lowest_key_witness :
    CFSQueue.dequeue (CFSQueue.new idlePCB) = (idlePCB, CFSQueue.new idlePCB) ∧
    CFSQueue.dequeue ⟨0, [(1, pcbV 2 1), (3, pcbV 4 3)], idlePCB⟩
      = (pcbV 2 1, ⟨0, [(3, pcbV 4 3)], idlePCB⟩) := by
  have h1 := dequeue_idle_and_lowest_key (CFSQueue.new idlePCB)
    (CFSQueue.new idlePCB) (by simp [CFSQueue.new, keysSorted])
    (by simp [CFSQueue.new, keysSorted])
  have h2 := dequeue_idle_and_lowest_key
    ⟨0, [(1, pcbV 2 1), (3, pcbV 4 3)], idlePCB⟩ (CFSQueue.new idlePCB)
    (by simp [keysSorted]) (by simp [CFSQueue.new, keysSorted])
  exact ⟨h1.1 rfl, (h2.2.1 1 (pcbV 2 1) [(3, pcbV 4 3)] rfl).1⟩

/-- C5: pcbs enqueued into an empty run queue come back out of repeated
dequeues in non-decreasing virtual-runtime order; in particular enqueueing
virtual runtimes 5, 1, 3 and dequeuing three times yields 1, 3, 5. -/
theorem dequeue_order_nondecreasing (idle : PCBModel) (ps : List PCBModel) :
    (((CFSQueue.new idle).enqueueAll ps).drain.map
        PCBModel.virtual_runtime).Pairwise (fun a b => a ≤ b) ∧
    ((CFSQueue.new idlePCB).enqueueAll
        [pcbV 2 5, pcbV 3 1, pcbV 4 3]).drain.map PCBModel.virtual_runtime
      = [1, 3, 5] := by
  constructor
  · have hinv := enqueueAll_preserves_inv ps (CFSQueue.new idle)
      (by simp [CFSQueue.new, keysSorted])
      (by intro e he; simp [CFSQueue.new] at he)
    obtain ⟨h1, h2⟩ := hinv
    rw [drain_eq_map, List.map_map, List.pairwise_map]
    refine List.Pairwise.imp_of_mem ?_ h1
    intro a b ha hb hr
    have hva := h2 a ha
    have hvb := h2 b hb
    simp only [Function.comp]
    rw [← hva, ← hvb]
    exact hr
  · decide

/-- C6: a process that has not exited, calling mark_sleep on its own behalf
with interrupts disabled, is moved to Blocked(interruptible), has the
NEED_SCHEDULE flag raised, receives Ok, and the call itself performs no
scheduler invocation. -/
theorem mark_sleep_blocks_and_flags (i : Bool) (s : ProcessState)
    (h : s.is_exited = false) :
    ∃ r, ProcessManager.mark_sleep i false s = some r ∧
      r.result = Except.ok () ∧
      r.state = ProcessState.Blocked i ∧
      PMEvent.insertNeedSchedule ∈ r.events ∧
      PMEvent.invokeScheduler ∉ r.events := by
  have hne : s ≠ ProcessState.Exited 0 := is_exited_false_ne_exited_zero s h
  refine ⟨{ result := Except.ok (), state := ProcessState.Blocked i,
            events := [PMEvent.setState (ProcessState.Blocked i),
                       PMEvent.insertNeedSchedule, PMEvent.releaseSchedLock] },
          ?_, rfl, rfl, by simp, by simp⟩
  simp [ProcessManager.mark_sleep, hne]

/-- C6 witness: a Runnable process is not exited, and mark_sleep moves it to
Blocked(true) raising the flag without scheduling. -/
theorem mark_sleep_blocks_and_flags_witness :
    ProcessState.Runnable.is_exited = false ∧
    ∃ r, ProcessManager.mark_sleep true false ProcessState.Runnable = some r ∧
      r.result = Except.ok () ∧
      r.state = ProcessState.Blocked true ∧
      PMEvent.insertNeedSchedule ∈ r.events ∧
      PMEvent.invokeScheduler ∉ r.events :=
  ⟨rfl, mark_sleep_blocks_and_flags true ProcessState.Runnable rfl⟩

/-- C7: releasing pid 5 while no strong reference besides the registry's own
entry exists observes an Arc strong count of 2 through the clone that find()
itself returned, fails the at-most-1 test, and halts fatally (none) without
removing the registry entry — and the same happens with outstanding external
references, so the claimed sole-reference removal case never runs. -/
theorem release_sole_registry_reference_fails :
    ProcessManager.release [(5, pcbV 5 0)] 5 0 = none ∧
    ProcessManager.release [(5, pcbV 5 0)] 5 3 = none ∧
    ProcessManager.release [] 5 0 = some [] := by
  refine ⟨rfl, rfl, rfl⟩

/-- C8: a process other than init (pid 1) exiting while init is registered
moves every entry of its child map into init's child map (other entries of
init's map are untouched) and is left with an empty child map; init itself
exiting reassigns nothing. -/
theorem exit_notify_adoption (current_pid : Nat)
    (self_children init_children : List (Nat × PCBModel))
    (hnd : (self_children.map Prod.fst).Nodup) :
    (current_pid ≠ 1 →
      ∃ r, ProcessManager.exit_notify current_pid true self_children
          init_children = some r ∧
        r.1 = [] ∧
        (∀ k v, (k, v) ∈ self_children → mapLookup r.2 k = some v) ∧
        (∀ k, mapLookup self_children k = none →
          mapLookup r.2 k = mapLookup init_children k)) ∧
    (current_pid = 1 →
      ProcessManager.exit_notify current_pid true self_children init_children
        = some (self_children, init_children)) := by
  constructor
  · intro hne
    refine ⟨([], self_children.foldl (fun acc e => mapInsert acc e.1 e.2)
        init_children), ?_, rfl, ?_, ?_⟩
    · simp [ProcessManager.exit_notify, hne,
        ProcessControlBlock.adopt_childen]
    · intro k v hkv
      exact foldl_insert_lookup_mem self_children init_children k v hnd hkv
    · intro k hk
      exact foldl_insert_lookup_not_mem self_children init_children k
        ((mapLookup_eq_none_iff self_children k).mp hk)
  · intro hone
    simp [ProcessManager.exit_notify, hone]

/-- C8 witness: pid 2 with two children (pids 3 and 4) exits; both children
become lookupable in init's child map and the exiting map is empty. -/
theorem exit_notify_adoption_witness :
    (([(3, pcbV 3 0), (4, pcbV 4 0)].map Prod.fst).Nodup) ∧
    ((2 ≠ 1) →
      ∃ r, ProcessManager.exit_notify 2 true [(3, pcbV 3 0), (4, pcbV 4 0)]
          [] = some r ∧
        r.1 = [] ∧
        (∀ k v, (k, v) ∈ [(3, pcbV 3 0), (4, pcbV 4 0)] →
          mapLookup r.2 k = some v) ∧
        (∀ k, mapLookup [(3, pcbV 3 0), (4, pcbV 4 0)] k = none →
          mapLookup r.2 k = mapLookup ([] : List (Nat × PCBModel)) k)) :=
  ⟨by decide,
   (exit_notify_adoption 2 [(3, pcbV 3 0), (4, pcbV 4 0)] [] (by decide)).1⟩

/-- C9 counterexample: moving pid 5 from group 2 into the not-yet-existing
group 7 creates the destination list holding the group id 7 alone and
reports true; pid 5 is in no group afterwards, refuting the claim that pid
is added to the new group's member list on the creation path. -/
theorem set_pgid_by_pid_creation_drops_pid :
    ProcessGroupManager.set_pgid_by_pid [(2, [2, 5])] 5 7 2
      = some (true, [(2, [2]), (7, [7])]) ∧
    mapLookup [(2, [2]), (7, [7])] 7 = some [7] ∧
    (5 : Nat) ∉ ([7] : List Nat) := by
  refine ⟨rfl, rfl, by decide⟩

/-- C9 (amended): set_pgid_by_pid removes pid from the old group's member
list and returns true exactly when the destination list did not yet exist;
pid is appended to the destination member list when that list already
existed, while a freshly created destination list holds only the group id
new_pgid (which equals pid in the intended setpgid use, where only a
process's own pid can name a new group). -/
theorem set_pgid_by_pid_moves (inner : List (Nat × List Nat))
    (pid new_pgid old_pgid : Nat) (old_vec : List Nat)
    (hold : mapLookup inner old_pgid = some old_vec) :
    ∃ b m, ProcessGroupManager.set_pgid_by_pid inner pid new_pgid old_pgid
        = some (b, m) ∧
      pid ∉ old_vec.filter (fun x => x != pid) ∧
      (old_pgid ≠ new_pgid →
        mapLookup m old_pgid = some (old_vec.filter (fun x => x != pid))) ∧
      (b = true ↔ mapLookup inner new_pgid = none) ∧
      (∀ nv, mapLookup (mapUpdate inner old_pgid
            (old_vec.filter (fun x => x != pid))) new_pgid = some nv →
        b = false ∧ mapLookup m new_pgid = some (nv ++ [pid])) ∧
      (mapLookup (mapUpdate inner old_pgid
            (old_vec.filter (fun x => x != pid))) new_pgid = none →
        b = true ∧ mapLookup m new_pgid = some [new_pgid]) := by
  have hfilter : pid ∉ old_vec.filter (fun x => x != pid) := by
    intro hmem
    have := List.of_mem_filter hmem
    simp [bne_iff_ne] at this
  cases hnew : mapLookup (mapUpdate inner old_pgid
      (old_vec.filter (fun x => x != pid))) new_pgid with
  | some nv =>
    refine ⟨false, mapUpdate (mapUpdate inner old_pgid
        (old_vec.filter (fun x => x != pid))) new_pgid (nv ++ [pid]),
      ?_, hfilter, ?_, ?_, ?_, ?_⟩
    · simp [ProcessGroupManager.set_pgid_by_pid, hold, hnew]
    · intro hne
      rw [mapLookup_mapUpdate_ne _ _ _ _ hne]
      exact mapLookup_mapUpdate_self inner old_pgid _ old_vec hold
    · refine ⟨fun hfalse => by simp at hfalse, fun hnone => ?_⟩
      have hcontra := hnew.symm.trans
        ((mapLookup_mapUpdate_none_iff inner old_pgid new_pgid
          (old_vec.filter (fun x => x != pid))).mpr hnone)
      simp at hcontra
    · intro nv2 hnv2
      have heq : nv = nv2 := Option.some_inj.mp hnv2
      subst heq
      exact ⟨rfl, mapLookup_mapUpdate_self _ new_pgid (nv ++ [pid]) nv hnew⟩
    · intro hnone
      simp at hnone
  | none =>
    refine ⟨true, mapUpdate inner old_pgid
        (old_vec.filter (fun x => x != pid)) ++ [(new_pgid, [new_pgid])],
      ?_, hfilter, ?_, ?_, ?_, ?_⟩
    · simp [ProcessGroupManager.set_pgid_by_pid, hold, hnew]
    · intro hne
      rw [mapLookup_append_ne _ _ _ _ hne]
      exact mapLookup_mapUpdate_self inner old_pgid _ old_vec hold
    · refine ⟨fun _ => ?_, fun _ => rfl⟩
      exact (mapLookup_mapUpdate_none_iff inner old_pgid new_pgid
        (old_vec.filter (fun x => x != pid))).mp hnew
    · intro nv2 hnv2
      simp at hnv2
    · intro _
      exact ⟨rfl, mapLookup_append_self _ new_pgid [new_pgid] hnew⟩

/-- C9 witness: moving pid 5 from group 2 into the existing group 9 appends
5 to group 9, removes it from group 2, and reports false. -/
theorem set_pgid_by_pid_moves_witness :
    ∃ b m, ProcessGroupManager.set_pgid_by_pid [(2, [2, 5]), (9, [9])] 5 9 2
        = some (b, m) ∧
      (5 : Nat) ∉ [2, 5].filter (fun x => x != 5) ∧
      ((2 : Nat) ≠ 9 →
        mapLookup m 2 = some ([2, 5].filter (fun x => x != 5))) ∧
      (b = true ↔ mapLookup [(2, [2, 5]), (9, [9])] 9 = none) ∧
      (∀ nv, mapLookup (mapUpdate [(2, [2, 5]), (9, [9])] 2
            ([2, 5].filter (fun x => x != 5))) 9 = some nv →
        b = false ∧ mapLookup m 9 = some (nv ++ [5])) ∧
      (mapLookup (mapUpdate [(2, [2, 5]), (9, [9])] 2
            ([2, 5].filter (fun x => x != 5))) 9 = none →
        b = true ∧ mapLookup m 9 = some [9]) :=
  set_pgid_by_pid_moves [(2, [2, 5]), (9, [9])] 5 9 2 [2, 5] rfl

/-- C10: every freshly constructed PCB — through new, new_idle or
do_create_pcb — starts with scheduling state Blocked(false), no CPU
assignment and virtual runtime 0, and among the manager's state-transition
operations only wakeup ever takes a non-Runnable state to Runnable. -/
theorem fresh_pcb_starts_blocked (generated_pid cpu_id : Nat)
    (is_idle : Bool) :
    ((ProcessControlBlock.new generated_pid).sched_info.state
        = ProcessState.Blocked false ∧
      (ProcessControlBlock.new generated_pid).sched_info.on_cpu = none ∧
      (ProcessControlBlock.new generated_pid).sched_info.virtual_runtime = 0) ∧
    ((ProcessControlBlock.new_idle cpu_id).sched_info.state
        = ProcessState.Blocked false ∧
      (ProcessControlBlock.new_idle cpu_id).sched_info.on_cpu = none ∧
      (ProcessControlBlock.new_idle cpu_id).sched_info.virtual_runtime = 0) ∧
    ((ProcessControlBlock.do_create_pcb generated_pid is_idle).sched_info.state
        = ProcessState.Blocked false ∧
      (ProcessControlBlock.do_create_pcb generated_pid
          is_idle).sched_info.on_cpu = none ∧
      (ProcessControlBlock.do_create_pcb generated_pid
          is_idle).sched_info.virtual_runtime = 0) ∧
    (∀ op s, s ≠ ProcessState.Runnable →
      PMOp.apply op s = ProcessState.Runnable → op = PMOp.wakeup) := by
  refine ⟨⟨rfl, rfl, rfl⟩, ⟨rfl, rfl, rfl⟩, ⟨rfl, rfl, rfl⟩, ?_⟩
  intro op s h1 h2
  cases op with
  | wakeup => rfl
  | mark_sleep i =>
    by_cases hs : s = ProcessState.Exited 0
    · subst hs
      simp [PMOp.apply, ProcessManager.mark_sleep] at h2
    · simp [PMOp.apply, ProcessManager.mark_sleep, hs] at h2
  | exit c =>
    simp [PMOp.apply, ProcessManager.exit] at h2

end DragonOS
